import Mathlib

set_option maxRecDepth 40000

/-!
Shallow embedding of the storage-host module `siacore/host.go` (contract
negotiation and storage-proof scheduling), together with proofs about the
claims of the specification.

Machine integers: Go `uint64` values (`consensus.BlockHeight`,
`consensus.Currency`, sizes) are modelled as `Nat` with explicit wrap-around
(`% 2^64`) at every arithmetic operation the source performs; Go `int64`/`int`
(`SpaceRemaining`, `Index`) are modelled as `Int`, with the Go conversion
`uint64(x)` modelled as two's-complement reduction.

Go maps (`map[BlockHeight][]ContractEntry`, `map[hash.Hash]string`) are
modelled as association lists with Go map semantics: lookup of an absent key
yields the zero value (empty list / absent), `m[k] = append(m[k], v)` appends
to the bucket, `delete(m, k)` removes the key.

External collaborators (wallet, consensus state, network connection, the wire
codec and the on-disk filesystem) are modelled as explicit inputs: boolean
success flags and oracle functions collected in environment records, so that
the control flow of the host code stays exactly as in the source.
-/

/-- 2^64, the modulus of Go `uint64` arithmetic. -/
def W64 : Nat := 2 ^ 64

/-- Go `uint64` addition (wraps modulo 2^64). -/
def add64 (a b : Nat) : Nat := (a + b) % W64

/-- Go `uint64` subtraction (wraps modulo 2^64). -/
def sub64 (a b : Nat) : Nat := (a + (W64 - b % W64)) % W64

/-- Go `uint64` multiplication (wraps modulo 2^64). -/
def mul64 (a b : Nat) : Nat := (a * b) % W64

/-- Go conversion `uint64(i)` of an `int64` value: two's-complement reduction. -/
def u64ofInt (i : Int) : Nat := (i.emod (2 ^ 64)).toNat

/-- `host.go`: `StorageProofReorgDepth = 6` — how many blocks to wait before
submitting a storage proof. -/
def StorageProofReorgDepth : Nat := 6

/-- `host.go`: `AcceptContractResponse = "accept"`. -/
def AcceptContractResponse : String := "accept"

/-- `consensus.FileContract` (external type, consumed read-only by the host).
Fields are the ones the host module reads; hashes and coin addresses are
modelled as `Nat`, with `0` standing for the zero/empty `CoinAddress`. -/
structure FileContract where
  start : Nat
  endH : Nat
  fileSize : Nat
  challengeWindow : Nat
  tolerance : Nat
  validProofPayout : Nat
  validProofAddress : Nat
  missedProofPayout : Nat
  missedProofAddress : Nat
  contractFund : Nat
  fileMerkleRoot : Nat
  deriving DecidableEq, Repr, Inhabited

/-- `host.go` `ContractEntry`: a contract together with its id (the id cannot
be derived from the contract terms alone). -/
structure ContractEntry where
  id : Nat
  contract : FileContract
  deriving DecidableEq, Repr, Inhabited

/-- `consensus.Transaction`, restricted to the fields the host module reads.
Inputs, signatures and fees are handled by the wallet/consensus collaborators,
modelled by the success flags of `NegotiationEnv`. -/
structure Transaction where
  fileContracts : List FileContract
  deriving DecidableEq, Repr, Inhabited

/-- `HostAnnouncement` (settings snapshot). The type lives outside `host.go`;
its fields are the ones `host.go` reads, named as in the spec:
min/max file size, min/max duration, min/max challenge window, min tolerance,
price, burn, payout coin address, total storage. -/
structure HostAnnouncement where
  totalStorage : Int
  minFilesize : Nat
  maxFilesize : Nat
  minDuration : Nat
  maxDuration : Nat
  minChallengeWindow : Nat
  maxChallengeWindow : Nat
  minTolerance : Nat
  price : Nat
  burn : Nat
  coinAddress : Nat
  deriving DecidableEq, Repr, Inhabited

/-- The height-indexed schedule maps `map[consensus.BlockHeight][]ContractEntry`,
as an association list with Go map semantics. -/
abbrev SMap := List (Nat × List ContractEntry)

/-- Go map read `m[k]` on a `map[BlockHeight][]ContractEntry`: the bucket, or
the zero value (nil slice) when the key is absent. -/
def sGet : SMap → Nat → List ContractEntry
  | [], _ => []
  | (k, v) :: rest, h => if k = h then v else sGet rest h

/-- Go `m[k] = append(m[k], e)` on a schedule map. -/
def sAppend : SMap → Nat → ContractEntry → SMap
  | [], k, e => [(k, [e])]
  | (k, v) :: rest, h, e =>
    if k = h then (k, v ++ [e]) :: rest else (k, v) :: sAppend rest h e

/-- Go `delete(m, k)` on a schedule map. -/
def sDelete : SMap → Nat → SMap
  | [], _ => []
  | (k, v) :: rest, h =>
    if k = h then sDelete rest h else (k, v) :: sDelete rest h

/-- The file mapping `map[hash.Hash]string` (Merkle root to storage location),
as an association list with Go map semantics. -/
abbrev FilesMap := List (Nat × String)

/-- Go map read with presence test: `filename, ok := m[k]`. -/
def fGet : FilesMap → Nat → Option String
  | [], _ => none
  | (k, v) :: rest, h => if k = h then some v else fGet rest h

/-- Go map write `m[k] = v` (replaces an existing binding). -/
def fSet : FilesMap → Nat → String → FilesMap
  | [], k, v => [(k, v)]
  | (k0, v0) :: rest, k, v =>
    if k0 = k then (k0, v) :: rest else (k0, v0) :: fSet rest k v

/-- `host.go` `Host`: settings, remaining space, file mapping, index counter
and the two proof schedules. -/
structure Host where
  settings : HostAnnouncement
  spaceRemaining : Int
  files : FilesMap
  index : Int
  forwardContracts : SMap
  backwardContracts : SMap
  deriving DecidableEq, Repr, Inhabited

/-- `host.go` `SetHostSettings`: remaining space moves by the change in total
storage, then the settings are replaced wholesale. -/
def setHostSettings (host : Host) (ha : HostAnnouncement) : Host :=
  { host with
      spaceRemaining :=
        host.spaceRemaining + (ha.totalStorage - host.settings.totalStorage),
      settings := ha }

/-- External collaborators of one negotiation session: wallet funding/signing,
consensus re-validation, the connection (acceptance write, delivered upload
bytes, seek), the external `hash.ReaderMerkleRoot` computation, transaction
acceptance, and the contract id derivation `t.FileContractID(0)`. -/
structure NegotiationEnv where
  fundOk : Bool
  signOk : Bool
  validOk : Bool
  writeAcceptOk : Bool
  createOk : Bool
  connBytes : List Nat
  seekOk : Bool
  readerMerkleRoot : List Nat → Nat → Except String Nat
  acceptTxnOk : Bool
  contractID : Nat

/-- Outcome of `considerContract`. `panicked` is the Go runtime panic raised
by indexing `nt.FileContracts[0]` when the transaction carries no file
contract (the index happens before the length check in the source).
`hostErr` covers the wallet/consensus failures after all policy checks. -/
inductive CCResult where
  | panicked
  | rejected (reason : String)
  | hostErr (reason : String)
  | accepted
  deriving DecidableEq, Repr

/-- The size-rejection message built by
`fmt.Errorf("file is of incorrect size - filesize %v, min %v, max %v", ...)`. -/
def sizeErrMsg (fileSize minSize maxSize : Nat) : String :=
  "file is of incorrect size - filesize " ++ toString fileSize ++
    ", min " ++ toString minSize ++ ", max " ++ toString maxSize

/-- `host.go` `considerContract`, line by line. The source dereferences
`nt.FileContracts[0]` (durations, file size) before checking
`len(nt.FileContracts) != 1`, so an empty contract list panics. All
arithmetic is Go `uint64` arithmetic (wrapping). -/
def considerContract (host : Host) (env : NegotiationEnv) (height : Nat)
    (t : Transaction) : CCResult :=
  match t.fileContracts with
  | [] => .panicked
  | fc :: rest =>
    let contractDuration := sub64 fc.endH fc.start
    let fullDuration := sub64 fc.endH height
    let fileSize := fc.fileSize
    if rest.length + 1 ≠ 1 then
      .rejected "transaction must have exactly one contract"
    else if fileSize < host.settings.minFilesize ∨
        fileSize > host.settings.maxFilesize then
      .rejected (sizeErrMsg fileSize host.settings.minFilesize host.settings.maxFilesize)
    else if fileSize > u64ofInt host.spaceRemaining then
      .rejected "host is at capacity and can not take more files."
    else if fullDuration < host.settings.minDuration ∨
        fullDuration > host.settings.maxDuration then
      .rejected "contract duration is out of bounds"
    else if fc.challengeWindow < host.settings.minChallengeWindow ∨
        fc.challengeWindow > host.settings.maxChallengeWindow then
      .rejected "challenges frequency is too often"
    else if fc.tolerance < host.settings.minTolerance then
      .rejected "tolerance is too low"
    else if fc.validProofAddress ≠ host.settings.coinAddress then
      .rejected "coins are not paying out to correct address"
    else if fc.validProofPayout <
        mul64 (mul64 host.settings.price fileSize) fc.challengeWindow then
      .rejected "valid proof payout is too low"
    else if fc.missedProofAddress ≠ 0 then
      .rejected "burn payout needs to go to the empty address"
    else if fc.missedProofPayout >
        mul64 (mul64 host.settings.burn fileSize) fc.challengeWindow then
      .rejected "burn payout is too high for a missed proof."
    else if fc.contractFund <
        mul64 (mul64 (add64 host.settings.burn host.settings.price) fileSize)
          contractDuration then
      .rejected "ContractFund does not cover the entire duration of the contract."
    else if !env.fundOk then
      .hostErr "Host is having trouble - sorry!"
    else if !env.signOk then
      .hostErr "sign transaction failed"
    else if !env.validOk then
      .hostErr "post-verified transaction not valid - most likely a client error, but could be a host error too"
    else .accepted

/-- Modelled from the spec: `hash.CalculateSegments` — the segment count of a
file is the ceiling division of its size by the fixed segment size. The hash
library is an external collaborator; the concrete segment size (64 bytes) is
not observed by any claim. -/
def segmentSize : Nat := 64

/-- Modelled from the spec: number of segments, ceiling division. -/
def calculateSegments (fileSize : Nat) : Nat :=
  (fileSize + segmentSize - 1) / segmentSize

/-- Exit point of one negotiation session, tagging where `NegotiateContract`
returned. `rejectedSent` is the path that writes the `considerContract` error
text back to the client. -/
inductive NOutcome where
  | panicked
  | rejectedSent (reason : String)
  | acceptWriteFailed
  | createFailed
  | copyFailed
  | seekFailed
  | merkleReadFailed
  | merkleMismatch
  | late
  | acceptTxnFailed
  | success
  deriving DecidableEq, Repr

/-- Result of one negotiation session: the exit point, the host state after
the session, whether the storage location was created, and whether it was kept
(the deferred `os.Remove` deletes it whenever the session returns an error). -/
structure NegResult where
  outcome : NOutcome
  host : Host
  fileCreated : Bool
  fileKept : Bool
  deriving Repr

/-- `host.go` `NegotiateContract`, from the already-decoded proposed
transaction (the wire decode is the external codec collaborator). Follows the
source exactly: consider the contract (rejections are written back to the
client and end the session with the host untouched); create the storage
location named by the current index; copy `FileSize` bytes from the
connection; recompute the Merkle root of what was written; check lateness via
the wrapping `Start-2`; record the file and bump the index; submit the
transaction; and only then register the first proof in the forward schedule
at `Start + StorageProofReorgDepth`. -/
def negotiateContract (host : Host) (env : NegotiationEnv) (height : Nat)
    (t : Transaction) : NegResult :=
  match considerContract host env height t with
  | .panicked => ⟨.panicked, host, false, false⟩
  | .rejected r => ⟨.rejectedSent r, host, false, false⟩
  | .hostErr r => ⟨.rejectedSent r, host, false, false⟩
  | .accepted =>
    if !env.writeAcceptOk then ⟨.acceptWriteFailed, host, false, false⟩
    else if !env.createOk then ⟨.createFailed, host, false, false⟩
    else
      let fc := t.fileContracts.headD default
      if env.connBytes.length < fc.fileSize then ⟨.copyFailed, host, true, false⟩
      else if !env.seekOk then ⟨.seekFailed, host, true, false⟩
      else
        match env.readerMerkleRoot (env.connBytes.take fc.fileSize)
            (calculateSegments fc.fileSize) with
        | .error _ => ⟨.merkleReadFailed, host, true, false⟩
        | .ok root =>
          if root ≠ fc.fileMerkleRoot then ⟨.merkleMismatch, host, true, false⟩
          else if height ≥ sub64 fc.start 2 then ⟨.late, host, true, false⟩
          else
            let host1 := { host with
              files := fSet host.files fc.fileMerkleRoot (toString host.index),
              index := host.index + 1 }
            if !env.acceptTxnOk then ⟨.acceptTxnFailed, host1, true, false⟩
            else
              let entry : ContractEntry := ⟨env.contractID, fc⟩
              let firstProof := add64 fc.start StorageProofReorgDepth
              let fwd := sAppend host1.forwardContracts firstProof entry
              ⟨.success, { host1 with forwardContracts := fwd }, true, true⟩

/-- A node of the local filesystem: a regular file with its byte content, or a
directory (opening a directory succeeds on the host platform; reading from it
fails). -/
inductive FsNode where
  | file (content : List Nat)
  | dir
  deriving DecidableEq, Repr

/-- External collaborators of the proof-maintenance path: the host directory
prefix, the openable paths of the local filesystem, and the consensus call
`e.state.StorageProofSegmentIndex(contractID, windowIndex)`. -/
structure MEnv where
  hostDir : String
  fs : List (String × FsNode)
  segmentIndex : Nat → Nat → Except String Nat

/-- `os.Open`: succeeds on any existing path (file or directory). -/
def osOpen (fs : List (String × FsNode)) (path : String) : Except String FsNode :=
  match fs with
  | [] => .error "open: no such file or directory"
  | (p, n) :: rest => if p = path then .ok n else osOpen rest path

/-- Modelled from the spec: `consensus.FileContract.WindowIndex` (external
consensus type) — the index of the challenge window containing the given
height; errors when the height is outside the contract interval. -/
def fcWindowIndex (fc : FileContract) (height : Nat) : Except String Nat :=
  if height < fc.start ∨ height ≥ fc.endH then
    .error "height outside of contract window"
  else .ok ((height - fc.start) / fc.challengeWindow)

/-- Modelled from the spec: `hash.BuildReaderProof` (external hash library) —
reads the byte source and returns the raw bytes of the target segment plus the
sibling-hash path. Reading a directory fails; the sibling-hash path is an
opaque hash-library computation that no claim observes, so it is modelled as
the empty path. -/
def buildReaderProof (node : FsNode) (numSegments segIdx : Nat) :
    Except String (List Nat × List (List Nat)) :=
  match node with
  | .dir => .error "read: is a directory"
  | .file content =>
    if numSegments ≤ segIdx then .error "segment index out of range"
    else .ok ((content.drop (segIdx * segmentSize)).take segmentSize, [])

/-- `consensus.StorageProof{entry.ID, windowIndex, base, hashSet}`. -/
structure StorageProof where
  contractID : Nat
  windowIndex : Nat
  base : List Nat
  hashSet : List (List Nat)
  deriving DecidableEq, Repr

/-- `host.go` `createStorageProof`. Faithful to the source slip: when the
file-mapping lookup fails, the Go code assigns
`err = errors.New("no record of that file")` but does not return, and `err`
is immediately overwritten by the result of `os.Open(e.hostDir + filename)`
with `filename` left at its zero value `""` — so the lookup failure only
influences which path gets opened. -/
def createStorageProof (files : FilesMap) (env : MEnv) (entry : ContractEntry)
    (stateHeight : Nat) : Except String StorageProof :=
  let filename := (fGet files entry.contract.fileMerkleRoot).getD ""
  match osOpen env.fs (env.hostDir ++ filename) with
  | .error e => .error e
  | .ok node =>
    let numSegments := calculateSegments entry.contract.fileSize
    match fcWindowIndex entry.contract stateHeight with
    | .error e => .error e
    | .ok wIdx =>
      match env.segmentIndex entry.id wIdx with
      | .error e => .error e
      | .ok segIdx =>
        match buildReaderProof node numSegments segIdx with
        | .error e => .error e
        | .ok bh => .ok ⟨entry.id, wIdx, bh.1, bh.2⟩

/-- The mutable state of one `storageProofMaintenance` invocation: the two
schedule maps plus the accumulated proofs. -/
structure MState where
  fwd : SMap
  bwd : SMap
  proofs : List StorageProof
  deriving Repr

/-- Rewind phase, one backward contract entry: regenerate the proof at the
current height; a failure is logged and skipped, a success is accumulated.
The schedules are not mutated. -/
def rewindEntry (files : FilesMap) (env : MEnv) (height : Nat) (st : MState)
    (entry : ContractEntry) : MState :=
  match createStorageProof files env entry height with
  | .error _ => st
  | .ok p => { st with proofs := st.proofs ++ [p] }

/-- Rewind phase of `storageProofMaintenance`: one iteration per rewound
block, walking the height downward (`height--` in `uint64`), reading the
backward bucket at each height. Returns the state and the height variable
left for the apply phase. -/
def rewindLoop (files : FilesMap) (env : MEnv) :
    List Nat → Nat → MState → MState × Nat
  | [], height, st => (st, height)
  | _ :: rest, height, st =>
    let st1 := (sGet st.bwd height).foldl (rewindEntry files env height) st
    rewindLoop files env rest (sub64 height 1) st1

/-- Apply phase, one forward contract entry at `height`: build the proof (a
failure is logged and the entry skipped via `continue`); on success accumulate
it, append the entry to the backward bucket at `height - ReorgDepth + 1`, and
reinsert it into the forward bucket at `height + ChallengeWindow` when that
height is strictly before the contract end. -/
def processEntry (files : FilesMap) (env : MEnv) (height : Nat) (st : MState)
    (entry : ContractEntry) : MState :=
  match createStorageProof files env entry height with
  | .error _ => st
  | .ok p =>
    let backKey := add64 (sub64 height StorageProofReorgDepth) 1
    let st1 := { st with proofs := st.proofs ++ [p],
                         bwd := sAppend st.bwd backKey entry }
    let nextProof := add64 height entry.contract.challengeWindow
    if nextProof < entry.contract.endH then
      { st1 with fwd := sAppend st1.fwd nextProof entry }
    else st1

/-- Apply phase, one applied block at `height`: process every entry of the
forward bucket at `height` (the slice is snapshotted before the loop, exactly
as in the source), then delete the forward bucket for that height entirely. -/
def applyOne (files : FilesMap) (env : MEnv) (st : MState) (height : Nat) :
    MState :=
  let st1 := (sGet st.fwd height).foldl (processEntry files env height) st
  { st1 with fwd := sDelete st1.fwd height }

/-- Apply phase of `storageProofMaintenance`: one iteration per applied block,
walking the height upward from where the rewind phase left it. -/
def applyLoop (files : FilesMap) (env : MEnv) :
    List Nat → Nat → MState → MState × Nat
  | [], height, st => (st, height)
  | _ :: rest, height, st =>
    applyLoop files env rest (add64 height 1) (applyOne files env st height)

/-- `host.go` `storageProofMaintenance`: rewind phase, then apply phase, both
starting from `initialStateHeight`; only the counts of the rewound/applied
block lists matter to the walk. Returns the host with the updated schedules
together with the accumulated proofs (which the source then submits in a
single funded transaction — wallet/consensus collaborators). -/
def storageProofMaintenance (host : Host) (env : MEnv)
    (initialStateHeight : Nat) (rewoundBlocks appliedBlocks : List Nat) :
    Host × List StorageProof :=
  let st0 : MState := ⟨host.forwardContracts, host.backwardContracts, []⟩
  let r1 := rewindLoop host.files env rewoundBlocks initialStateHeight st0
  let r2 := applyLoop host.files env appliedBlocks r1.2 r1.1
  ({ host with forwardContracts := r2.1.fwd, backwardContracts := r2.1.bwd },
    r2.1.proofs)

/-- Number of occurrences of an entry in a list of entries. -/
def ecount (x : ContractEntry) : List ContractEntry → Nat
  | [] => 0
  | e :: rest => (if e = x then 1 else 0) + ecount x rest

/-- Total number of occurrences of an entry across all buckets of a schedule
map. -/
def cnt (x : ContractEntry) : SMap → Nat
  | [] => 0
  | (_, v) :: rest => ecount x v + cnt x rest

/-- Number of occurrences of an entry in the buckets of a schedule map that
carry a given height key. -/
def cntAt (x : ContractEntry) (h : Nat) : SMap → Nat
  | [] => 0
  | (k, v) :: rest => (if k = h then ecount x v else 0) + cntAt x h rest

/-- The spec scenario settings: min/max filesize 1/1000, price 1, burn 1,
duration 10/1000, challenge window 5/100, min tolerance 1, coin address 7,
total storage 1000. -/
def specSettings : HostAnnouncement :=
  { totalStorage := 1000, minFilesize := 1, maxFilesize := 1000,
    minDuration := 10, maxDuration := 1000, minChallengeWindow := 5,
    maxChallengeWindow := 100, minTolerance := 1, price := 1, burn := 1,
    coinAddress := 7 }

/-- A fresh host with the scenario settings and 500 bytes of remaining
space. -/
def host0 : Host :=
  { settings := specSettings, spaceRemaining := 500, files := [], index := 0,
    forwardContracts := [], backwardContracts := [] }

/-- The spec scenario contract: 500 bytes, start 20, end 120, window 10,
tolerance 2, payouts matching the settings, committed root 42. -/
def specContract : FileContract :=
  { start := 20, endH := 120, fileSize := 500, challengeWindow := 10,
    tolerance := 2, validProofPayout := 5000, validProofAddress := 7,
    missedProofPayout := 0, missedProofAddress := 0, contractFund := 100000,
    fileMerkleRoot := 42 }

/-- The scenario proposal transaction. -/
def t0 : Transaction := ⟨[specContract]⟩

/-- A fully cooperative session environment: every collaborator succeeds, the
client uploads 500 bytes whose recomputed Merkle root is the committed 42. -/
def env0 : NegotiationEnv :=
  { fundOk := true, signOk := true, validOk := true, writeAcceptOk := true,
    createOk := true, connBytes := List.replicate 500 0, seekOk := true,
    readerMerkleRoot := fun _ _ => .ok 42, acceptTxnOk := true,
    contractID := 99 }

/-- A transaction carrying two copies of the scenario contract. -/
def t2 : Transaction := ⟨[specContract, specContract]⟩

/-- The scenario contract with start height 1: its proof obligations begin
almost immediately, so by the spec any negotiation at height 0 is late
(0 ≥ 1 - 2 over the integers). -/
def lateContract : FileContract :=
  { specContract with start := 1, endH := 100 }

/-- Maintenance environment in which the host directory path itself opens as
a readable byte source (64 bytes of 9s) and the consensus segment-index call
succeeds. -/
def env10 : MEnv :=
  { hostDir := "hostdir/",
    fs := [("hostdir/", FsNode.file (List.replicate 64 9))],
    segmentIndex := fun _ _ => .ok 0 }

/-- A contract entry whose committed root 42 is mapped by no file: start 4,
end 100, 64-byte file, challenge window 10. -/
def entry10 : ContractEntry :=
  ⟨1, { start := 4, endH := 100, fileSize := 64, challengeWindow := 10,
        tolerance := 2, validProofPayout := 0, validProofAddress := 7,
        missedProofPayout := 0, missedProofAddress := 0, contractFund := 0,
        fileMerkleRoot := 42 }⟩

/-- An entry scheduled in the forward bucket at height 10, with its 64-byte
file stored at location "0". -/
def entryA : ContractEntry :=
  ⟨1, { start := 4, endH := 100, fileSize := 64, challengeWindow := 10,
        tolerance := 2, validProofPayout := 5000, validProofAddress := 7,
        missedProofPayout := 0, missedProofAddress := 0,
        contractFund := 100000, fileMerkleRoot := 42 }⟩

/-- Host state whose forward schedule owes a proof for `entryA` at height 10
and whose file mapping can serve it. -/
def hostC1 : Host :=
  { settings := specSettings, spaceRemaining := 500, files := [(42, "0")],
    index := 1, forwardContracts := [(10, [entryA])], backwardContracts := [] }

/-- Maintenance environment with the stored file present at "d/0". -/
def envC1 : MEnv :=
  { hostDir := "d/", fs := [("d/0", FsNode.file (List.replicate 64 7))],
    segmentIndex := fun _ _ => .ok 0 }

/-- Host state owing a proof for `entryA` at height 10 whose file mapping has
no record of the entry (so proof construction fails: the bare host directory
path opens as a directory and reading it fails). -/
def hostC6 : Host :=
  { settings := specSettings, spaceRemaining := 500, files := [], index := 0,
    forwardContracts := [(10, [entryA])], backwardContracts := [] }

/-- Maintenance environment where the host directory is a directory. -/
def envC6 : MEnv :=
  { hostDir := "d/", fs := [("d/", FsNode.dir)],
    segmentIndex := fun _ _ => .ok 0 }

/-- The cooperative environment except that the external transaction
acceptance fails at the very last step. -/
def envC3 : NegotiationEnv := { env0 with acceptTxnOk := false }

/-- The host state after the registration step (file mapping and index
counter updated for the head contract of `t`). -/
def hostAfterRecord (host : Host) (t : Transaction) : Host :=
  { host with
      files := fSet host.files (t.fileContracts.headD default).fileMerkleRoot
        (toString host.index),
      index := host.index + 1 }

/-- The host state after full registration (record step plus the forward
schedule insertion at `Start + StorageProofReorgDepth`). -/
def hostAfterRegister (host : Host) (env : NegotiationEnv) (t : Transaction) :
    Host :=
  { hostAfterRecord host t with
      forwardContracts := sAppend host.forwardContracts
        (add64 (t.fileContracts.headD default).start StorageProofReorgDepth)
        ⟨env.contractID, t.fileContracts.headD default⟩ }

/-- The scenario contract blown up to 5000 bytes, above the 1000-byte
maximum. -/
def bigContract : FileContract := { specContract with fileSize := 5000 }

/-- A reachable-looking host state at chain height 10: the forward buckets at
the re-applied heights 8 and 9 are empty (they were drained when first
applied), the next obligation sits at height 100, and the backward bucket at
height 10 retains the last proved entry. -/
def hostC7 : Host :=
  { settings := specSettings, spaceRemaining := 500, files := [],
    index := 0, forwardContracts := [(100, [entryA])],
    backwardContracts := [(10, [entryA])] }

/-- The cooperative environment except that the uploaded bytes hash to root
1 instead of the committed 42. -/
def envBadRoot : NegotiationEnv :=
  { env0 with readerMerkleRoot := fun _ _ => .ok 1 }

/-- A second entry due at the same height 10 as `entryA`: same terms, its own
id and committed root 43, its 64-byte file stored at location "1". -/
def entryB : ContractEntry :=
  ⟨2, { start := 4, endH := 100, fileSize := 64, challengeWindow := 10,
        tolerance := 2, validProofPayout := 5000, validProofAddress := 7,
        missedProofPayout := 0, missedProofAddress := 0,
        contractFund := 100000, fileMerkleRoot := 43 }⟩

/-- Host state whose forward bucket at height 10 holds two entries due at
once (`entryB` then `entryA`), both files stored. -/
def hostC6b : Host :=
  { settings := specSettings, spaceRemaining := 500,
    files := [(42, "0"), (43, "1")], index := 2,
    forwardContracts := [(10, [entryB, entryA])], backwardContracts := [] }

/-- Maintenance environment with both stored files present. -/
def envC6b : MEnv :=
  { hostDir := "d/",
    fs := [("d/0", FsNode.file (List.replicate 64 7)),
           ("d/1", FsNode.file (List.replicate 64 8))],
    segmentIndex := fun _ _ => .ok 0 }

/-- C2: the claim says every accepted negotiation decrements `SpaceRemaining`
by the accepted file size, so two successive acceptances cannot be charged
against the same free space. The code never writes `SpaceRemaining` during a
negotiation: starting from 500 bytes of free space, two successive 500-byte
contracts are both accepted and the space is still 500 afterwards — both were
charged against the same free space. -/
theorem c2_space_never_consumed :
    (negotiateContract host0 env0 0 t0).outcome = NOutcome.success ∧
    (negotiateContract (negotiateContract host0 env0 0 t0).host env0 0
      t0).outcome = NOutcome.success ∧
    (negotiateContract (negotiateContract host0 env0 0 t0).host env0 0
      t0).host.spaceRemaining = 500 ∧
    host0.spaceRemaining = 500 ∧ specContract.fileSize = 500 := by
  refine ⟨?_, ?_, ?_, rfl, rfl⟩ <;> decide

/-- C4: on a proposal with two file-contract terms the first check rejects
with the "must have exactly one contract" reason and the host is untouched;
but on a proposal with zero terms the code panics (it evaluates
`nt.FileContracts[0].End` before the length check) instead of returning the
rejection reason. -/
theorem c4_zero_contracts_panics :
    considerContract host0 env0 0 ⟨[]⟩ = CCResult.panicked ∧
    (negotiateContract host0 env0 0 ⟨[]⟩).outcome = NOutcome.panicked ∧
    considerContract host0 env0 0 t2 =
      CCResult.rejected "transaction must have exactly one contract" ∧
    (negotiateContract host0 env0 0 t2).host = host0 := by
  refine ⟨rfl, rfl, ?_, rfl⟩
  decide

/-- C5: the claim says a negotiation with current height ≥ start - 2 is
always rejected as late, including small start heights such as 0 or 1. The
code computes `Start-2` in `uint64`, which wraps to 2^64-1 for start 1, so
the lateness check never fires: the whole session succeeds at height 0 even
though height + 2 ≥ start. -/
theorem c5_lateness_check_underflows :
    (negotiateContract host0 env0 0 ⟨[lateContract]⟩).outcome =
      NOutcome.success ∧
    0 + 2 ≥ lateContract.start ∧
    sub64 lateContract.start 2 = 2 ^ 64 - 1 := by
  refine ⟨?_, ?_, ?_⟩ <;> decide

/-- C10: the claim says a failed file-mapping lookup always yields a non-nil
error and never a proof built from another byte source. In the code the
`err = errors.New("no record of that file")` assignment is not followed by a
return, so `err` is overwritten by `os.Open(e.hostDir + "")`: with the root
absent from the mapping, `createStorageProof` happily returns a proof whose
base segment was read from whatever byte source lives at the bare host
directory path. -/
theorem c10_lookup_error_dropped :
    fGet [] entry10.contract.fileMerkleRoot = none ∧
    createStorageProof [] env10 entry10 10 =
      Except.ok ⟨1, 0, List.replicate 64 9, []⟩ := by
  refine ⟨rfl, ?_⟩
  rfl

/-- C1: the claim says an entry never sits in a forward bucket and a backward
bucket simultaneously. After the maintenance driver applies one block at
height 10, `entryA` sits in the backward bucket at height 5 (retention for
reorgs) and at the same time in the forward bucket at height 20 (its next
proof) — the two schedules are not mutually exclusive. -/
theorem c1_forward_backward_overlap :
    sGet (storageProofMaintenance hostC1 envC1 10 [] [77]).1.backwardContracts
      5 = [entryA] ∧
    sGet (storageProofMaintenance hostC1 envC1 10 [] [77]).1.forwardContracts
      20 = [entryA] := by
  refine ⟨?_, ?_⟩ <;> decide

/-- C6: the claim says every entry found in the forward bucket at the applied
height is moved into the backward bucket and reinserted forward iff its next
window precedes the contract end. When proof construction fails the loop
`continue`s: the entry is neither moved to backward nor reinserted (even
though height 20 is before its end 100), yet the forward bucket at the
processed height is still deleted — the entry is dropped entirely. -/
theorem c6_failed_proof_entry_dropped :
    sGet hostC6.forwardContracts 10 = [entryA] ∧
    add64 10 entryA.contract.challengeWindow < entryA.contract.endH ∧
    sGet (storageProofMaintenance hostC6 envC6 10 [] [77]).1.backwardContracts
      5 = [] ∧
    cnt entryA
      (storageProofMaintenance hostC6 envC6 10 [] [77]).1.forwardContracts
      = 0 := by
  refine ⟨rfl, ?_, ?_, ?_⟩ <;> decide

/-- C3: the claim says every error after the acceptance message leaves the
file mapping, index counter and forward schedule unchanged. When the external
transaction acceptance fails, the mapping and the index counter have already
been mutated and are not rolled back: the mapping now records root 42 at
location "0" (whose file the deferred cleanup just deleted) and the index
moved from 0 to 1. Only the forward schedule is still unchanged. -/
theorem c3_accept_failure_leaves_registration :
    (negotiateContract host0 envC3 0 t0).outcome = NOutcome.acceptTxnFailed ∧
    fGet host0.files 42 = none ∧
    fGet (negotiateContract host0 envC3 0 t0).host.files 42 = some "0" ∧
    (negotiateContract host0 envC3 0 t0).host.index = host0.index + 1 ∧
    (negotiateContract host0 envC3 0 t0).fileKept = false := by
  refine ⟨?_, rfl, ?_, ?_, ?_⟩ <;> decide

/-- Exhaustive characterization of one negotiation session: the session either
succeeds with full registration and the file kept; or fails at external
transaction acceptance with the record step already done and the file
deleted; or exits anywhere earlier with the host completely unchanged and no
file kept. -/
theorem negotiate_shape (host : Host) (env : NegotiationEnv) (height : Nat)
    (t : Transaction) :
    ((negotiateContract host env height t).outcome = NOutcome.success ∧
      (negotiateContract host env height t).host =
        hostAfterRegister host env t ∧
      (negotiateContract host env height t).fileKept = true) ∨
    ((negotiateContract host env height t).outcome =
        NOutcome.acceptTxnFailed ∧
      (negotiateContract host env height t).host = hostAfterRecord host t ∧
      (negotiateContract host env height t).fileKept = false) ∨
    ((negotiateContract host env height t).host = host ∧
      (negotiateContract host env height t).fileKept = false ∧
      (negotiateContract host env height t).outcome ≠ NOutcome.success ∧
      (negotiateContract host env height t).outcome ≠
        NOutcome.acceptTxnFailed) := by
  unfold negotiateContract hostAfterRegister hostAfterRecord
  repeat' split
  all_goals try simp_all
  all_goals repeat' split
  all_goals simp_all

/-- C8: every successfully completed negotiation appends the contract entry
(the derived contract id together with the contract terms) to the forward
schedule bucket at exactly `Start + StorageProofReorgDepth`, and the constant
`StorageProofReorgDepth` is 6. -/
theorem c8_success_inserts_forward (host : Host) (env : NegotiationEnv)
    (height : Nat) (t : Transaction)
    (hs : (negotiateContract host env height t).outcome = NOutcome.success) :
    (negotiateContract host env height t).host.forwardContracts =
      sAppend host.forwardContracts
        (add64 (t.fileContracts.headD default).start StorageProofReorgDepth)
        ⟨env.contractID, t.fileContracts.headD default⟩ ∧
    StorageProofReorgDepth = 6 := by
  rcases negotiate_shape host env height t with ⟨_, hh, _⟩ | ⟨ho, _, _⟩ |
    ⟨_, _, hne, _⟩
  · exact ⟨by rw [hh]; rfl, rfl⟩
  · rw [hs] at ho; cases ho
  · exact absurd hs hne

/-- Witness for C8: the spec scenario negotiation succeeds and its entry
lands in the forward bucket at start 20 plus reorg depth 6. -/
theorem c8_success_inserts_forward_witness :
    (negotiateContract host0 env0 0 t0).outcome = NOutcome.success ∧
    (negotiateContract host0 env0 0 t0).host.forwardContracts =
      sAppend host0.forwardContracts (add64 specContract.start 6)
        ⟨99, specContract⟩ :=
  ⟨by decide, (c8_success_inserts_forward host0 env0 0 t0 (by decide)).1⟩

/-- C9: a proposed contract whose file size is outside
`[MinFilesize, MaxFilesize]` is rejected with the size-specific reason, and
the whole session leaves the host state (space, files, index, both schedules)
unchanged. -/
theorem c9_size_rejected_unchanged (host : Host) (env : NegotiationEnv)
    (height : Nat) (fc : FileContract)
    (hsize : fc.fileSize < host.settings.minFilesize ∨
      fc.fileSize > host.settings.maxFilesize) :
    considerContract host env height ⟨[fc]⟩ =
      CCResult.rejected (sizeErrMsg fc.fileSize host.settings.minFilesize
        host.settings.maxFilesize) ∧
    (negotiateContract host env height ⟨[fc]⟩).host = host := by
  have hcc : considerContract host env height ⟨[fc]⟩ =
      CCResult.rejected (sizeErrMsg fc.fileSize host.settings.minFilesize
        host.settings.maxFilesize) := by
    unfold considerContract
    simp [hsize]
  refine ⟨hcc, ?_⟩
  unfold negotiateContract
  rw [hcc]

/-- Witness for C9: the oversized proposal is rejected with the size reason
and the host is unchanged. -/
theorem c9_size_rejected_unchanged_witness :
    considerContract host0 env0 0 ⟨[bigContract]⟩ =
      CCResult.rejected (sizeErrMsg 5000 1 1000) ∧
    (negotiateContract host0 env0 0 ⟨[bigContract]⟩).host = host0 :=
  c9_size_rejected_unchanged host0 env0 0 bigContract (Or.inr (by decide))

/-- C3 (amended): for every session error after the acceptance message up to
and including the lateness check (short read, seek or Merkle-root read
failure, root mismatch, lateness), the partially-written storage location is
deleted and the host state is completely unchanged. On a transaction-
acceptance failure the location is likewise deleted and the forward schedule
is unchanged — but the file mapping and the index counter retain the
registration performed just before submission. -/
theorem c3_cleanup_on_failure (host : Host) (env : NegotiationEnv)
    (height : Nat) (t : Transaction) :
    ((negotiateContract host env height t).outcome = NOutcome.copyFailed ∨
     (negotiateContract host env height t).outcome = NOutcome.seekFailed ∨
     (negotiateContract host env height t).outcome =
       NOutcome.merkleReadFailed ∨
     (negotiateContract host env height t).outcome = NOutcome.merkleMismatch ∨
     (negotiateContract host env height t).outcome = NOutcome.late →
      (negotiateContract host env height t).host = host ∧
      (negotiateContract host env height t).fileKept = false) ∧
    ((negotiateContract host env height t).outcome =
        NOutcome.acceptTxnFailed →
      (negotiateContract host env height t).host.forwardContracts =
        host.forwardContracts ∧
      (negotiateContract host env height t).fileKept = false) := by
  rcases negotiate_shape host env height t with ⟨h1, _, _⟩ | ⟨h1, h2, h3⟩ |
    ⟨h1, h2, _, h4⟩
  · constructor <;> intro hp <;> simp_all
  · constructor
    · intro hp; simp_all
    · intro _; exact ⟨by rw [h2]; rfl, h3⟩
  · constructor
    · intro _; exact ⟨h1, h2⟩
    · intro hp; exact absurd hp h4

/-- Reading a schedule map after a bucket append. -/
theorem sGet_sAppend (m : SMap) (h k : Nat) (e : ContractEntry) :
    sGet (sAppend m h e) k = if k = h then sGet m h ++ [e] else sGet m k := by
  induction m with
  | nil =>
    by_cases hk : k = h
    · subst hk; simp [sAppend, sGet]
    · simp [sAppend, sGet, hk, Ne.symm hk]
  | cons p rest ih =>
    obtain ⟨k0, v⟩ := p
    by_cases h0 : k0 = h
    · subst h0
      by_cases hk : k = k0
      · subst hk; simp [sAppend, sGet]
      · simp [sAppend, sGet, hk, Ne.symm hk]
    · by_cases hk : k0 = k
      · subst hk
        simp [sAppend, sGet, h0, Ne.symm h0, ih]
      · simp [sAppend, sGet, h0, hk, ih]

/-- Reading a schedule map after a bucket delete. -/
theorem sGet_sDelete (m : SMap) (h k : Nat) :
    sGet (sDelete m h) k = if k = h then [] else sGet m k := by
  induction m with
  | nil => simp [sDelete, sGet]
  | cons p rest ih =>
    obtain ⟨k0, v⟩ := p
    by_cases h0 : k0 = h
    · subst h0
      by_cases hk : k = k0
      · subst hk; simp [sDelete, sGet, ih]
      · simp [sDelete, sGet, hk, Ne.symm hk, ih]
    · by_cases hk : k0 = k
      · subst hk
        simp [sDelete, sGet, h0, Ne.symm h0, ih]
      · simp [sDelete, sGet, h0, hk, ih]

/-- Occurrence counting distributes over list append. -/
theorem ecount_append (x : ContractEntry) (a b : List ContractEntry) :
    ecount x (a ++ b) = ecount x a + ecount x b := by
  induction a with
  | nil => simp [ecount]
  | cons e rest ih => simp [ecount, ih]; omega

/-- Appending one entry to a bucket raises the total occurrence count of `x`
by one exactly when the appended entry is `x`. -/
theorem cnt_sAppend (x : ContractEntry) (m : SMap) (h : Nat)
    (e : ContractEntry) :
    cnt x (sAppend m h e) = cnt x m + (if e = x then 1 else 0) := by
  induction m with
  | nil => simp [sAppend, cnt, ecount]
  | cons p rest ih =>
    obtain ⟨k0, v⟩ := p
    by_cases h0 : k0 = h <;>
      simp [sAppend, cnt, h0, ih, ecount_append, ecount] <;> omega

/-- Appending one entry to the bucket at `h` raises the occurrence count of
`x` at key `k` by one exactly when the entry is `x` and `h` is `k`. -/
theorem cntAt_sAppend (x : ContractEntry) (m : SMap) (h k : Nat)
    (e : ContractEntry) :
    cntAt x k (sAppend m h e) =
      cntAt x k m + (if h = k ∧ e = x then 1 else 0) := by
  induction m with
  | nil =>
    by_cases hk : h = k
    · subst hk; simp [sAppend, cntAt, ecount]
    · simp [sAppend, cntAt, ecount, hk]
  | cons p rest ih =>
    obtain ⟨k0, v⟩ := p
    by_cases h0 : k0 = h
    · subst h0
      by_cases hk : k0 = k
      · subst hk; simp [sAppend, cntAt, ecount_append, ecount]; omega
      · simp [sAppend, cntAt, hk, ecount_append]
    · simp [sAppend, cntAt, h0, ih]
      omega

/-- Deleting the buckets at key `h` removes exactly the occurrences counted
at `h`. -/
theorem cnt_sDelete (x : ContractEntry) (m : SMap) (h : Nat) :
    cnt x (sDelete m h) + cntAt x h m = cnt x m := by
  induction m with
  | nil => simp [sDelete, cnt, cntAt]
  | cons p rest ih =>
    obtain ⟨k0, v⟩ := p
    by_cases h0 : k0 = h <;> simp [sDelete, cnt, cntAt, h0] <;> omega

/-- The occurrences of `x` in the bucket returned by a map read are at most
the occurrences counted at that key. -/
theorem ecount_sGet_le (x : ContractEntry) (m : SMap) (h : Nat) :
    ecount x (sGet m h) ≤ cntAt x h m := by
  induction m with
  | nil => simp [sGet, cntAt, ecount]
  | cons p rest ih =>
    obtain ⟨k0, v⟩ := p
    by_cases h0 : k0 = h <;> (simp [sGet, cntAt, h0]; try omega)

/-- One apply-phase entry step changes the forward occurrence counts of `x`
by at most one: it adds one (at the reinsertion key
`height + x.challengeWindow`) exactly when the processed entry is `x`, its
proof succeeds and a window remains; otherwise the forward map is
untouched. -/
theorem processEntry_cnt (files : FilesMap) (env : MEnv) (h : Nat)
    (st : MState) (e x : ContractEntry) :
    ∃ s, s ≤ (if e = x then 1 else 0) ∧
      cnt x (processEntry files env h st e).fwd = cnt x st.fwd + s ∧
      cntAt x h (processEntry files env h st e).fwd =
        cntAt x h st.fwd +
          (if add64 h x.contract.challengeWindow = h then s else 0) := by
  unfold processEntry
  cases hcp : createStorageProof files env e h with
  | error msg => exact ⟨0, by simp⟩
  | ok p =>
    by_cases hnext : add64 h e.contract.challengeWindow < e.contract.endH
    · refine ⟨if e = x then 1 else 0, le_refl _, ?_, ?_⟩
      · simp [hnext, cnt_sAppend]
      · by_cases hex : e = x
        · subst hex
          by_cases hc : add64 h e.contract.challengeWindow = h <;>
            (simp only [if_pos hnext]; simp [cntAt_sAppend, hc])
        · simp only [if_pos hnext]
          simp [cntAt_sAppend, hex]
    · refine ⟨0, by simp, by simp [hnext], ?_⟩
      by_cases hc : add64 h x.contract.challengeWindow = h <;>
        simp [hnext, hc]

/-- Folding the apply-phase entry step over a bucket adds at most
`ecount x bucket` forward occurrences of `x`, all of them at the reinsertion
key of `x`. -/
theorem foldl_processEntry_cnt (files : FilesMap) (env : MEnv) (h : Nat)
    (x : ContractEntry) :
    ∀ (es : List ContractEntry) (st : MState),
      ∃ r, r ≤ ecount x es ∧
        cnt x (List.foldl (processEntry files env h) st es).fwd =
          cnt x st.fwd + r ∧
        cntAt x h (List.foldl (processEntry files env h) st es).fwd =
          cntAt x h st.fwd +
            (if add64 h x.contract.challengeWindow = h then r else 0) := by
  intro es
  induction es with
  | nil => intro st; exact ⟨0, by simp [ecount], by simp, by simp⟩
  | cons e rest ih =>
    intro st
    obtain ⟨s, hs, hc1, hc2⟩ := processEntry_cnt files env h st e x
    obtain ⟨r, hr, hd1, hd2⟩ := ih (processEntry files env h st e)
    refine ⟨s + r, ?_, ?_, ?_⟩
    · simp [ecount]; omega
    · simp only [List.foldl_cons]; omega
    · simp only [List.foldl_cons]
      by_cases hc : add64 h x.contract.challengeWindow = h <;>
        simp only [hc, if_true, if_false] at hc2 hd2 ⊢ <;> omega

/-- Processing one applied height never increases the number of forward
occurrences of any entry. -/
theorem applyOne_cnt_le (files : FilesMap) (env : MEnv) (st : MState)
    (h : Nat) (x : ContractEntry) :
    cnt x (applyOne files env st h).fwd ≤ cnt x st.fwd := by
  obtain ⟨r, hr, hc1, hc2⟩ :=
    foldl_processEntry_cnt files env h x (sGet st.fwd h) st
  have hle := ecount_sGet_le x st.fwd h
  have hdel := cnt_sDelete x
    (List.foldl (processEntry files env h) st (sGet st.fwd h)).fwd h
  show cnt x (sDelete
    (List.foldl (processEntry files env h) st (sGet st.fwd h)).fwd h) ≤
    cnt x st.fwd
  by_cases hc : add64 h x.contract.challengeWindow = h <;>
    simp only [hc, if_true, if_false] at hc2 <;> omega

/-- The apply phase never increases the number of forward occurrences of any
entry. -/
theorem applyLoop_cnt_le (files : FilesMap) (env : MEnv) (x : ContractEntry) :
    ∀ (bs : List Nat) (h : Nat) (st : MState),
      cnt x (applyLoop files env bs h st).1.fwd ≤ cnt x st.fwd := by
  intro bs
  induction bs with
  | nil => intro h st; simp [applyLoop]
  | cons b rest ih =>
    intro h st
    calc cnt x (applyLoop files env (b :: rest) h st).1.fwd
        = cnt x (applyLoop files env rest (add64 h 1)
            (applyOne files env st h)).1.fwd := rfl
      _ ≤ cnt x (applyOne files env st h).fwd := ih _ _
      _ ≤ cnt x st.fwd := applyOne_cnt_le files env st h x

/-- The rewind phase reads the backward schedule but mutates neither
schedule. -/
theorem foldl_rewindEntry_maps (files : FilesMap) (env : MEnv) (h : Nat) :
    ∀ (es : List ContractEntry) (st : MState),
      (List.foldl (rewindEntry files env h) st es).fwd = st.fwd ∧
      (List.foldl (rewindEntry files env h) st es).bwd = st.bwd := by
  intro es
  induction es with
  | nil => intro st; exact ⟨rfl, rfl⟩
  | cons e rest ih =>
    intro st
    have hstep : (rewindEntry files env h st e).fwd = st.fwd ∧
        (rewindEntry files env h st e).bwd = st.bwd := by
      unfold rewindEntry
      cases createStorageProof files env e h <;> simp
    obtain ⟨ha, hb⟩ := ih (rewindEntry files env h st e)
    simp only [List.foldl_cons]
    exact ⟨ha.trans hstep.1, hb.trans hstep.2⟩

/-- The rewind loop mutates neither schedule. -/
theorem rewindLoop_maps (files : FilesMap) (env : MEnv) :
    ∀ (bs : List Nat) (h : Nat) (st : MState),
      (rewindLoop files env bs h st).1.fwd = st.fwd ∧
      (rewindLoop files env bs h st).1.bwd = st.bwd := by
  intro bs
  induction bs with
  | nil => intro h st; exact ⟨rfl, rfl⟩
  | cons b rest ih =>
    intro h st
    have hfold := foldl_rewindEntry_maps files env h (sGet st.bwd h) st
    have hrec := ih (sub64 h 1)
      (List.foldl (rewindEntry files env h) st (sGet st.bwd h))
    exact ⟨hrec.1.trans hfold.1, hrec.2.trans hfold.2⟩

/-- The forward schedule left by a full maintenance invocation, unfolded. -/
theorem maintenance_fwd (host : Host) (env : MEnv) (ih0 : Nat)
    (rb ab : List Nat) :
    (storageProofMaintenance host env ih0 rb ab).1.forwardContracts =
      (applyLoop host.files env ab
        (rewindLoop host.files env rb ih0
          ⟨host.forwardContracts, host.backwardContracts, []⟩).2
        (rewindLoop host.files env rb ih0
          ⟨host.forwardContracts, host.backwardContracts, []⟩).1).1.fwd := rfl

/-- The backward schedule left by a full maintenance invocation, unfolded. -/
theorem maintenance_bwd (host : Host) (env : MEnv) (ih0 : Nat)
    (rb ab : List Nat) :
    (storageProofMaintenance host env ih0 rb ab).1.backwardContracts =
      (applyLoop host.files env ab
        (rewindLoop host.files env rb ih0
          ⟨host.forwardContracts, host.backwardContracts, []⟩).2
        (rewindLoop host.files env rb ih0
          ⟨host.forwardContracts, host.backwardContracts, []⟩).1).1.bwd := rfl

/-- C1 (amended): forward-schedule uniqueness is what the code maintains —
an entry occurring at most once across all forward buckets before a
maintenance invocation occurs at most once afterwards, for any mix of rewound
and applied blocks. Forward and backward are, however, not mutually
exclusive (see the counterexample): after a proof is built the entry is
retained backward while also scheduled forward. -/
theorem c1_forward_uniqueness_preserved (x : ContractEntry) (host : Host)
    (env : MEnv) (initial : Nat) (rb ab : List Nat)
    (h : cnt x host.forwardContracts ≤ 1) :
    cnt x (storageProofMaintenance host env initial rb ab).1.forwardContracts
      ≤ 1 := by
  rw [maintenance_fwd]
  have hrw := rewindLoop_maps host.files env rb initial
    ⟨host.forwardContracts, host.backwardContracts, []⟩
  have hap := applyLoop_cnt_le host.files env x ab
    (rewindLoop host.files env rb initial
      ⟨host.forwardContracts, host.backwardContracts, []⟩).2
    (rewindLoop host.files env rb initial
      ⟨host.forwardContracts, host.backwardContracts, []⟩).1
  rw [hrw.1] at hap
  exact hap.trans h

/-- Witness for C1 (amended): `entryA` occurs once in `hostC1`'s forward
schedule, and still at most once after the maintenance step that moved it. -/
theorem c1_forward_uniqueness_preserved_witness :
    cnt entryA hostC1.forwardContracts ≤ 1 ∧
    cnt entryA
      (storageProofMaintenance hostC1 envC1 10 [] [77]).1.forwardContracts
      ≤ 1 :=
  ⟨by decide,
    c1_forward_uniqueness_preserved entryA hostC1 envC1 10 [] [77] (by decide)⟩

/-- The `uint64` modulus as a numeral. -/
theorem W64_eq : W64 = 18446744073709551616 := by norm_num [W64]

/-- `uint64` subtraction agrees with truncated subtraction below the
modulus. -/
theorem sub64_eq (a b : Nat) (hb : b ≤ a) (ha : a < W64) : sub64 a b = a - b := by
  unfold sub64
  rw [W64_eq] at ha ⊢
  omega

/-- `uint64` addition agrees with addition below the modulus. -/
theorem add64_eq (a b : Nat) (h : a + b < W64) : add64 a b = a + b := by
  unfold add64
  rw [W64_eq] at h ⊢
  omega

/-- Adding a nonzero in-range offset to an in-range height moves it. -/
theorem add64_ne (h w : Nat) (hw1 : 1 ≤ w) (hw2 : w < W64) :
    add64 h w ≠ h := by
  unfold add64
  rw [W64_eq] at hw2 ⊢
  omega

/-- The rewind loop leaves the height variable at the initial height minus
the number of rewound blocks (no wrap below the modulus). -/
theorem rewindLoop_height (files : FilesMap) (env : MEnv) :
    ∀ (bs : List Nat) (h : Nat) (st : MState), bs.length ≤ h → h < W64 →
      (rewindLoop files env bs h st).2 = h - bs.length := by
  intro bs
  induction bs with
  | nil => intro h st _ _; simp [rewindLoop]
  | cons b rest ih =>
    intro h st hlen hlt
    have hlen1 : rest.length + 1 ≤ h := by simpa using hlen
    have h1 : sub64 h 1 = h - 1 := sub64_eq h 1 (by omega) hlt
    show (rewindLoop files env rest (sub64 h 1)
      (List.foldl (rewindEntry files env h) st (sGet st.bwd h))).2 =
      h - (b :: rest).length
    rw [h1, ih (h - 1) _ (by omega) (by omega)]
    simp
    omega

/-- When every forward bucket in the range of applied heights is empty, the
apply phase changes neither schedule (deleting absent buckets is a no-op). -/
theorem applyLoop_noop (files : FilesMap) (env : MEnv) :
    ∀ (bs : List Nat) (h : Nat) (st : MState),
      (∀ j, j < bs.length → sGet st.fwd (h + j) = []) →
      h + bs.length ≤ W64 →
      (∀ g, sGet (applyLoop files env bs h st).1.fwd g = sGet st.fwd g) ∧
      (applyLoop files env bs h st).1.bwd = st.bwd := by
  intro bs
  induction bs with
  | nil => intro h st _ _; exact ⟨fun g => rfl, rfl⟩
  | cons b rest ih =>
    intro h st hempty hbound
    have hbound1 : h + (rest.length + 1) ≤ W64 := by simpa using hbound
    have hh0 : sGet st.fwd h = [] := by simpa using hempty 0 (by simp)
    have hone : ∀ g, sGet (applyOne files env st h).fwd g = sGet st.fwd g := by
      intro g
      show sGet (sDelete
        (List.foldl (processEntry files env h) st (sGet st.fwd h)).fwd h) g =
        sGet st.fwd g
      rw [hh0]
      simp only [List.foldl_nil]
      rw [sGet_sDelete]
      by_cases hg : g = h
      · subst hg; rw [hh0]; simp
      · simp [hg]
    have honeb : (applyOne files env st h).bwd = st.bwd := by
      show (List.foldl (processEntry files env h) st (sGet st.fwd h)).bwd =
        st.bwd
      rw [hh0]
      simp only [List.foldl_nil]
    by_cases hw : h + 1 < W64
    · have hadd : add64 h 1 = h + 1 := add64_eq h 1 hw
      obtain ⟨ihg, ihb⟩ := ih (add64 h 1) (applyOne files env st h)
        (by
          intro j hj
          rw [hone, hadd]
          have hx := hempty (j + 1) (by simp; omega)
          have hxx : h + 1 + j = h + (j + 1) := by omega
          rw [hxx]
          exact hx)
        (by rw [hadd]; omega)
      refine ⟨fun g => ?_, ?_⟩
      · have hg : sGet (applyLoop files env (b :: rest) h st).1.fwd g =
            sGet (applyLoop files env rest (add64 h 1)
              (applyOne files env st h)).1.fwd g := rfl
        rw [hg, ihg g, hone g]
      · have hb2 : (applyLoop files env (b :: rest) h st).1.bwd =
            (applyLoop files env rest (add64 h 1)
              (applyOne files env st h)).1.bwd := rfl
        rw [hb2, ihb, honeb]
    · have hrest : rest = [] := by
        have : rest.length = 0 := by omega
        exact List.eq_nil_of_length_eq_zero this
      subst hrest
      refine ⟨fun g => ?_, ?_⟩
      · have hg : sGet (applyLoop files env [b] h st).1.fwd g =
            sGet (applyOne files env st h).fwd g := rfl
        rw [hg, hone g]
      · have hb2 : (applyLoop files env [b] h st).1.bwd =
            (applyOne files env st h).bwd := rfl
        rw [hb2, honeb]

/-- C7: a no-op reorg — one maintenance invocation rewinding `k` blocks and
re-applying `k` blocks, starting from a reachable schedule in which the
re-applied heights hold no pending forward entries (as is the case when no
contract was negotiated concurrently: every such bucket was drained when its
height was first applied) — leaves both schedules extensionally unchanged.
The rewind phase only regenerates proofs, and the apply phase only deletes
already-empty buckets. -/
theorem c7_noop_reorg (host : Host) (env : MEnv) (initial : Nat)
    (rb ab : List Nat) (hlen : rb.length = ab.length)
    (hk : rb.length ≤ initial) (hinit : initial < W64)
    (hempty : ∀ j, j < ab.length →
      sGet host.forwardContracts (initial - rb.length + j) = []) :
    (∀ g, sGet
        (storageProofMaintenance host env initial rb ab).1.forwardContracts g
        = sGet host.forwardContracts g) ∧
    (∀ g, sGet
        (storageProofMaintenance host env initial rb ab).1.backwardContracts g
        = sGet host.backwardContracts g) := by
  have hrw := rewindLoop_maps host.files env rb initial
    ⟨host.forwardContracts, host.backwardContracts, []⟩
  have hht := rewindLoop_height host.files env rb initial
    ⟨host.forwardContracts, host.backwardContracts, []⟩ hk hinit
  have hap := applyLoop_noop host.files env ab (initial - rb.length)
    (rewindLoop host.files env rb initial
      ⟨host.forwardContracts, host.backwardContracts, []⟩).1
    (by
      intro j hj
      rw [hrw.1]
      exact hempty j hj)
    (by omega)
  constructor
  · intro g
    rw [maintenance_fwd, hht, hap.1 g, hrw.1]
  · intro g
    rw [maintenance_bwd, hht, hap.2, hrw.2]

/-- Witness for C7: rewinding two blocks and re-applying two blocks at height
10 leaves both schedules of `hostC7` as they were. -/
theorem c7_noop_reorg_witness :
    sGet (storageProofMaintenance hostC7 envC1 10 [1, 2]
      [3, 4]).1.forwardContracts 100 = [entryA] ∧
    sGet (storageProofMaintenance hostC7 envC1 10 [1, 2]
      [3, 4]).1.backwardContracts 10 = [entryA] := by
  have h := c7_noop_reorg hostC7 envC1 10 [1, 2] [3, 4] rfl (by decide)
    (by decide) (by decide)
  exact ⟨(h.1 100).trans (by decide), (h.2 10).trans (by decide)⟩

/-- Components of one successful apply-phase entry step: the entry is
appended backward at `height - ReorgDepth + 1`, and forward at
`height + ChallengeWindow` exactly when that is before the contract end. -/
theorem processEntry_ok (files : FilesMap) (env : MEnv) (h : Nat)
    (st : MState) (e : ContractEntry) (p : StorageProof)
    (hp : createStorageProof files env e h = Except.ok p) :
    (processEntry files env h st e).bwd =
      sAppend st.bwd (add64 (sub64 h StorageProofReorgDepth) 1) e ∧
    (processEntry files env h st e).fwd =
      (if add64 h e.contract.challengeWindow < e.contract.endH then
        sAppend st.fwd (add64 h e.contract.challengeWindow) e
      else st.fwd) := by
  unfold processEntry
  rw [hp]
  by_cases hnext : add64 h e.contract.challengeWindow < e.contract.endH <;>
    simp [hnext]

/-- A failing apply-phase entry step leaves the state untouched. -/
theorem processEntry_err (files : FilesMap) (env : MEnv) (h : Nat)
    (st : MState) (e : ContractEntry) (msg : String)
    (hp : createStorageProof files env e h = Except.error msg) :
    processEntry files env h st e = st := by
  unfold processEntry
  rw [hp]

/-- An entry that is a member of a list occurs in it at least once. -/
theorem ecount_pos (x : ContractEntry) (l : List ContractEntry)
    (hm : x ∈ l) : 1 ≤ ecount x l := by
  induction l with
  | nil => cases hm
  | cons e rest ih =>
    rcases List.mem_cons.mp hm with he | hr
    · rw [show e = x from he.symm]
      simp [ecount]
    · have := ih hr
      simp [ecount]
      omega

/-- The apply-phase entry step only appends to forward buckets, so forward
membership is preserved. -/
theorem processEntry_fwd_mem (files : FilesMap) (env : MEnv) (h : Nat)
    (st : MState) (e' x : ContractEntry) (k : Nat)
    (hm : x ∈ sGet st.fwd k) :
    x ∈ sGet (processEntry files env h st e').fwd k := by
  cases hcp : createStorageProof files env e' h with
  | error msg => rw [processEntry_err files env h st e' msg hcp]; exact hm
  | ok p =>
    rw [(processEntry_ok files env h st e' p hcp).2]
    by_cases hnext : add64 h e'.contract.challengeWindow < e'.contract.endH
    · rw [if_pos hnext, sGet_sAppend]
      by_cases hk : k = add64 h e'.contract.challengeWindow
      · rw [if_pos hk]
        exact List.mem_append_left _ (hk ▸ hm)
      · rw [if_neg hk]; exact hm
    · rw [if_neg hnext]; exact hm

/-- The apply-phase entry step only appends to backward buckets, so backward
membership is preserved. -/
theorem processEntry_bwd_mem (files : FilesMap) (env : MEnv) (h : Nat)
    (st : MState) (e' x : ContractEntry) (k : Nat)
    (hm : x ∈ sGet st.bwd k) :
    x ∈ sGet (processEntry files env h st e').bwd k := by
  cases hcp : createStorageProof files env e' h with
  | error msg => rw [processEntry_err files env h st e' msg hcp]; exact hm
  | ok p =>
    rw [(processEntry_ok files env h st e' p hcp).1, sGet_sAppend]
    by_cases hk : k = add64 (sub64 h StorageProofReorgDepth) 1
    · rw [if_pos hk]
      exact List.mem_append_left _ (hk ▸ hm)
    · rw [if_neg hk]; exact hm

/-- Forward membership is preserved across the whole apply-phase fold. -/
theorem foldl_processEntry_fwd_mem (files : FilesMap) (env : MEnv) (h : Nat)
    (x : ContractEntry) (k : Nat) :
    ∀ (es : List ContractEntry) (st : MState), x ∈ sGet st.fwd k →
      x ∈ sGet (List.foldl (processEntry files env h) st es).fwd k := by
  intro es
  induction es with
  | nil => intro st hm; exact hm
  | cons e' rest ih =>
    intro st hm
    simp only [List.foldl_cons]
    exact ih _ (processEntry_fwd_mem files env h st e' x k hm)

/-- Backward membership is preserved across the whole apply-phase fold. -/
theorem foldl_processEntry_bwd_mem (files : FilesMap) (env : MEnv) (h : Nat)
    (x : ContractEntry) (k : Nat) :
    ∀ (es : List ContractEntry) (st : MState), x ∈ sGet st.bwd k →
      x ∈ sGet (List.foldl (processEntry files env h) st es).bwd k := by
  intro es
  induction es with
  | nil => intro st hm; exact hm
  | cons e' rest ih =>
    intro st hm
    simp only [List.foldl_cons]
    exact ih _ (processEntry_bwd_mem files env h st e' x k hm)

/-- When `x` has no remaining challenge window at height `h`, no apply-phase
entry step can reinsert it, so its total forward count is unchanged. -/
theorem processEntry_cnt_fixed (files : FilesMap) (env : MEnv) (h : Nat)
    (st : MState) (e x : ContractEntry)
    (hnot : ¬ add64 h x.contract.challengeWindow < x.contract.endH) :
    cnt x (processEntry files env h st e).fwd = cnt x st.fwd := by
  cases hcp : createStorageProof files env e h with
  | error msg => rw [processEntry_err files env h st e msg hcp]
  | ok p =>
    rw [(processEntry_ok files env h st e p hcp).2]
    by_cases hnext : add64 h e.contract.challengeWindow < e.contract.endH
    · rw [if_pos hnext, cnt_sAppend]
      have hex : e ≠ x := by
        intro he
        subst he
        exact hnot hnext
      rw [if_neg hex]
      omega
    · rw [if_neg hnext]

/-- When `x` has no remaining challenge window at height `h`, the whole
apply-phase fold leaves its total forward count unchanged. -/
theorem foldl_processEntry_cnt_fixed (files : FilesMap) (env : MEnv)
    (h : Nat) (x : ContractEntry)
    (hnot : ¬ add64 h x.contract.challengeWindow < x.contract.endH) :
    ∀ (es : List ContractEntry) (st : MState),
      cnt x (List.foldl (processEntry files env h) st es).fwd =
        cnt x st.fwd := by
  intro es
  induction es with
  | nil => intro st; rfl
  | cons e' rest ih =>
    intro st
    simp only [List.foldl_cons]
    rw [ih (processEntry files env h st e'),
      processEntry_cnt_fixed files env h st e' x hnot]

/-- C6 (amended): when the maintenance driver applies one block at height
`h`, every contract entry found in the forward bucket at `h` whose storage
proof is built successfully (and whose challenge window is a nonzero
`uint64`) is moved into the backward bucket at `h - ReorgDepth + 1`; the
forward bucket at `h` is removed entirely; the entry is reinserted at
`h + challengeWindow` when that height is strictly before the contract end,
and otherwise (the entry appearing, as the code maintains, in no other
forward bucket) it leaves the forward schedule completely. Entries whose
proof construction fails are instead dropped without the backward move (see
the counterexample). -/
theorem c6_apply_moves_entry (host : Host) (env : MEnv) (h b : Nat)
    (e : ContractEntry) (p : StorageProof)
    (hmem : e ∈ sGet host.forwardContracts h)
    (hcnt : cnt e host.forwardContracts ≤ 1)
    (hproof : createStorageProof host.files env e h = Except.ok p)
    (hW1 : 1 ≤ e.contract.challengeWindow)
    (hW2 : e.contract.challengeWindow < W64) :
    e ∈ sGet (storageProofMaintenance host env h [] [b]).1.backwardContracts
        (add64 (sub64 h StorageProofReorgDepth) 1) ∧
    sGet (storageProofMaintenance host env h [] [b]).1.forwardContracts h
      = [] ∧
    (add64 h e.contract.challengeWindow < e.contract.endH →
      e ∈ sGet (storageProofMaintenance host env h [] [b]).1.forwardContracts
        (add64 h e.contract.challengeWindow)) ∧
    (¬ add64 h e.contract.challengeWindow < e.contract.endH →
      cnt e (storageProofMaintenance host env h [] [b]).1.forwardContracts
        = 0) := by
  have hF : (storageProofMaintenance host env h [] [b]).1.forwardContracts =
      sDelete (List.foldl (processEntry host.files env h)
        ⟨host.forwardContracts, host.backwardContracts, []⟩
        (sGet host.forwardContracts h)).fwd h := rfl
  have hB : (storageProofMaintenance host env h [] [b]).1.backwardContracts =
      (List.foldl (processEntry host.files env h)
        ⟨host.forwardContracts, host.backwardContracts, []⟩
        (sGet host.forwardContracts h)).bwd := rfl
  obtain ⟨l1, l2, hsplit⟩ := List.append_of_mem hmem
  refine ⟨?_, ?_, ?_, ?_⟩
  · rw [hB, hsplit, List.foldl_append]
    simp only [List.foldl_cons]
    apply foldl_processEntry_bwd_mem
    rw [(processEntry_ok host.files env h _ e p hproof).1, sGet_sAppend,
      if_pos rfl]
    exact List.mem_append_right _ (by simp)
  · rw [hF, sGet_sDelete, if_pos rfl]
  · intro hnext
    rw [hF, sGet_sDelete,
      if_neg (add64_ne h e.contract.challengeWindow hW1 hW2)]
    rw [hsplit, List.foldl_append]
    simp only [List.foldl_cons]
    apply foldl_processEntry_fwd_mem
    rw [(processEntry_ok host.files env h _ e p hproof).2, if_pos hnext,
      sGet_sAppend, if_pos rfl]
    exact List.mem_append_right _ (by simp)
  · intro hnot
    rw [hF]
    have hnorm : (⟨host.forwardContracts, host.backwardContracts, []⟩ :
        MState).fwd = host.forwardContracts := rfl
    have hfix := foldl_processEntry_cnt_fixed host.files env h e hnot
      (sGet host.forwardContracts h)
      ⟨host.forwardContracts, host.backwardContracts, []⟩
    obtain ⟨r, hr, hc1, hc2⟩ := foldl_processEntry_cnt host.files env h e
      (sGet host.forwardContracts h)
      ⟨host.forwardContracts, host.backwardContracts, []⟩
    have hdel := cnt_sDelete e (List.foldl (processEntry host.files env h)
      ⟨host.forwardContracts, host.backwardContracts, []⟩
      (sGet host.forwardContracts h)).fwd h
    have hle1 : 1 ≤ ecount e (sGet host.forwardContracts h) :=
      ecount_pos e _ hmem
    have hle2 := ecount_sGet_le e host.forwardContracts h
    rw [hnorm] at hfix hc1 hc2
    by_cases hcond : add64 h e.contract.challengeWindow = h <;>
      simp only [hcond, if_true, if_false] at hc2 <;> omega

/-- Witness for C6 (amended): with two entries due at height 10 in the same
forward bucket, `entryA` (the second of the bucket) is moved into the
backward bucket at 5, the forward bucket at 10 is removed, and `entryA` is
reinserted at height 20 (before its end 100). -/
theorem c6_apply_moves_entry_witness :
    entryA ∈ sGet (storageProofMaintenance hostC6b envC6b 10 []
        [78]).1.backwardContracts
      (add64 (sub64 10 StorageProofReorgDepth) 1) ∧
    sGet (storageProofMaintenance hostC6b envC6b 10 []
      [78]).1.forwardContracts 10 = [] ∧
    entryA ∈ sGet (storageProofMaintenance hostC6b envC6b 10 []
        [78]).1.forwardContracts (add64 10 entryA.contract.challengeWindow) :=
  ⟨(c6_apply_moves_entry hostC6b envC6b 10 78 entryA
      ⟨1, 0, List.replicate 64 7, []⟩ (by decide) (by decide) rfl (by decide)
      (by decide)).1,
   (c6_apply_moves_entry hostC6b envC6b 10 78 entryA
      ⟨1, 0, List.replicate 64 7, []⟩ (by decide) (by decide) rfl (by decide)
      (by decide)).2.1,
   (c6_apply_moves_entry hostC6b envC6b 10 78 entryA
      ⟨1, 0, List.replicate 64 7, []⟩ (by decide) (by decide) rfl (by decide)
      (by decide)).2.2.1 (by decide)⟩

/-- Witness for C3 (amended): a session failing at the Merkle-root check
leaves the host exactly as it was and does not keep the file. -/
theorem c3_cleanup_on_failure_witness :
    (negotiateContract host0 envBadRoot 0 t0).outcome =
      NOutcome.merkleMismatch ∧
    (negotiateContract host0 envBadRoot 0 t0).host = host0 ∧
    (negotiateContract host0 envBadRoot 0 t0).fileKept = false := by
  have h := (c3_cleanup_on_failure host0 envBadRoot 0 t0).1
    (Or.inr (Or.inr (Or.inr (Or.inl (by decide)))))
  exact ⟨by decide, h.1, h.2⟩
